import Mathlib

/-!
Verification of the `rust-http` repository: a shallow embedding of its
byte-delimiter scanner, request-line parser, header-block parser and
response model, with theorems checking the specification's claims.

Modelling conventions:
* Bytes and decoded Unicode code points are both modelled as `Nat`
  (ASCII text has identical bytes and code points).
* A Rust `&str`/`String` on the request-parsing side is modelled as its
  list of code points (`List Nat`); `str s` converts a Lean string
  literal to that form.  The response side, which never touches raw
  bytes, uses Lean `String` directly.
* A `BufReader<&TcpStream>` is modelled as the finite list of bytes the
  peer sends; consuming from the stream is explicit state passing
  (each parsing function returns the unread remainder of the stream).
* Fallible Rust code returns `Except`.  `Failure.ioError` models an
  `std::io::Error` (the scanner's "No sequence found in stream" error),
  `Failure.utf8Error` models a UTF-8 decoding failure, and
  `Failure.panicked` models a Rust panic (e.g. `Option::unwrap` on
  `None`) — a crash, not a returned `Result::Err`.
-/

deriving instance DecidableEq for Except

namespace RustHttp

/-- Convert a Lean string literal to its list of code points, the model
of Rust strings on the request side.  For ASCII strings this is also
the list of UTF-8 bytes. -/
def str (s : String) : List Nat := s.data.map Char.toNat

/-- The CRLF delimiter `b"\r\n"` used by every line-oriented parse step. -/
def crlf : List Nat := [13, 10]

/-- `containsSeq l seq` decides whether `seq` occurs as a contiguous
subsequence of `l`. -/
def containsSeq (l seq : List Nat) : Bool :=
  (List.range (l.length + 1)).any fun i => (l.drop i).take seq.length == seq

/-- The last `n` elements of `l` (all of `l` when `l` is shorter):
the sliding window of the scanner after consuming `l`. -/
def lastN (n : Nat) (l : List Nat) : List Nat := l.drop (l.length - n)

/-- The body of `parse_stream_untill_sequence` (main.rs:163-187,
request.rs:63-87): read one byte at a time, push it to the
accumulation buffer and the sliding window, evict the oldest window
byte once the window exceeds the delimiter length, and succeed when
the window equals the delimiter, returning the accumulation buffer
without the trailing delimiter plus the unread remainder of the
stream.  `none` models falling off the end of the stream. -/
def scanAux (seq : List Nat) : List Nat → List Nat → List Nat → Option (List Nat × List Nat)
  | [], _, _ => none
  | b :: rest, buffer, seqbuf =>
    let buffer' := buffer ++ [b]
    let sb := seqbuf ++ [b]
    let seqbuf' := if seq.length < sb.length then sb.tail else sb
    if seqbuf' = seq then
      some (buffer'.take (buffer'.length - seq.length), rest)
    else
      scanAux seq rest buffer' seqbuf'

/-- `parse_stream_untill_sequence` (sic), the byte-delimiter scanner:
returns the bytes before the first matched delimiter together with the
unread rest of the stream, or the source's io error message when the
stream ends before the delimiter is matched. -/
def parse_stream_untill_sequence (stream seq : List Nat) :
    Except String (List Nat × List Nat) :=
  match scanAux seq stream [] [] with
  | some r => .ok r
  | none => .error ("No sequence found in stream")

lemma lastN_nil (n : Nat) : lastN n [] = [] := by simp [lastN]

lemma length_lastN (n : Nat) (l : List Nat) : (lastN n l).length = min n l.length := by
  simp [lastN]; omega

/-- One step of the sliding-window update of the scanner preserves the
"window = last `n` consumed bytes" invariant. -/
lemma lastN_step (n : Nat) (l : List Nat) (b : Nat) :
    (if n < (lastN n l ++ [b]).length then (lastN n l ++ [b]).tail
     else lastN n l ++ [b]) = lastN n (l ++ [b]) := by
  by_cases h : l.length < n
  · have h1 : lastN n l = l := by
      simp [lastN, Nat.sub_eq_zero_of_le (Nat.le_of_lt h)]
    rw [h1, if_neg (by simp; omega)]
    have h2 : l.length + 1 - n = 0 := by omega
    simp [lastN, h2]
  · push_neg at h
    cases n with
    | zero => simp [lastN]
    | succ m =>
      have hlen : (lastN (m + 1) l).length = m + 1 := by
        rw [length_lastN]; omega
      rw [if_pos (by simp [hlen])]
      have htl : (lastN (m + 1) l ++ [b]).tail = (lastN (m + 1) l).tail ++ [b] := by
        cases hh : lastN (m + 1) l with
        | nil => rw [hh] at hlen; simp at hlen
        | cons y ys => simp
      rw [htl]
      unfold lastN
      rw [List.tail_drop]
      have hd : l.length - (m + 1) + 1 = l.length - m := by omega
      have hL : (l ++ [b]).length - (m + 1) = l.length - m := by simp
      rw [hd, hL, List.drop_append_of_le_length (by omega)]

lemma containsSeq_intro (l seq : List Nat) (i : Nat)
    (h : (l.drop i).take seq.length = seq) : containsSeq l seq = true := by
  unfold containsSeq
  simp only [List.any_eq_true, List.mem_range, beq_iff_eq]
  by_cases hi : i ≤ l.length
  · exact ⟨i, by omega, h⟩
  · have hseq : seq = [] := by
      rw [List.drop_of_length_le (by omega : l.length ≤ i)] at h
      simpa using h.symm
    subst hseq
    exact ⟨0, by omega, by simp⟩

lemma containsSeq_no_occ {l seq : List Nat} (h : containsSeq l seq = false) (i : Nat) :
    (l.drop i).take seq.length ≠ seq := by
  intro hh
  have htrue := containsSeq_intro l seq i hh
  rw [h] at htrue
  exact Bool.noConfusion htrue

/-- A two-byte pattern occurs in `l` exactly when `l` splits around it. -/
lemma containsSeq2_iff (l : List Nat) (x y : Nat) :
    containsSeq l [x, y] = true ↔ ∃ u w, l = u ++ x :: y :: w := by
  constructor
  · intro h
    unfold containsSeq at h
    simp only [List.any_eq_true, List.mem_range, beq_iff_eq] at h
    obtain ⟨i, _, hocc⟩ := h
    cases hd : l.drop i with
    | nil => rw [hd] at hocc; simp at hocc
    | cons a t =>
      cases t with
      | nil => rw [hd] at hocc; simp at hocc
      | cons c t' =>
        rw [hd] at hocc
        simp only [List.length_cons, List.length_nil] at hocc
        have hax : a = x ∧ c = y := by
          have : [a, c] = [x, y] := by simpa using hocc
          simpa using this
        refine ⟨l.take i, t', ?_⟩
        rw [← hax.1, ← hax.2, ← hd]
        exact (List.take_append_drop i l).symm
  · rintro ⟨u, w, rfl⟩
    apply containsSeq_intro _ _ u.length
    rw [List.drop_left]
    simp

lemma mem_of_containsSeq2 {l : List Nat} {x y : Nat}
    (h : containsSeq l [x, y] = true) : x ∈ l := by
  obtain ⟨u, w, rfl⟩ := (containsSeq2_iff l x y).mp h
  simp

lemma containsSeq2_false_of_not_mem {l : List Nat} {x y : Nat} (hx : x ∉ l) :
    containsSeq l [x, y] = false := by
  rw [Bool.eq_false_iff]
  intro h
  exact hx (mem_of_containsSeq2 h)

lemma containsSeq2_append_false {p q : List Nat} {x y : Nat} (hx : x ∉ p)
    (hq : containsSeq q [x, y] = false) : containsSeq (p ++ q) [x, y] = false := by
  rw [Bool.eq_false_iff]
  intro h
  obtain ⟨u, w, huw⟩ := (containsSeq2_iff _ x y).mp h
  rcases List.append_eq_append_iff.mp huw with ⟨a, _, ha2⟩ | ⟨c, hc1, hc2⟩
  · have : containsSeq q [x, y] = true :=
      (containsSeq2_iff _ x y).mpr ⟨a, w, ha2⟩
    rw [hq] at this; exact Bool.noConfusion this
  · cases c with
    | nil =>
      have : containsSeq q [x, y] = true :=
        (containsSeq2_iff _ x y).mpr ⟨[], w, by simpa using hc2.symm⟩
      rw [hq] at this; exact Bool.noConfusion this
    | cons e c' =>
      simp only [List.cons_append] at hc2
      injection hc2 with h1 _
      subst h1
      apply hx
      rw [hc1]
      simp

/-- If the consumed-so-far plus remaining bytes never contain the
delimiter, the scan runs off the end of the stream. -/
lemma scanAux_fails (seq : List Nat) :
    ∀ (stream buffer : List Nat),
      containsSeq (buffer ++ stream) seq = false →
      scanAux seq stream buffer (lastN seq.length buffer) = none := by
  intro stream
  induction stream with
  | nil => intro buffer _; rfl
  | cons b rest ih =>
    intro buffer h
    have h' : containsSeq (buffer ++ [b] ++ rest) seq = false := by
      simpa [List.append_assoc] using h
    simp only [scanAux]
    rw [lastN_step]
    have hne : lastN seq.length (buffer ++ [b]) ≠ seq := by
      intro heq
      have hocc : (((buffer ++ [b]) ++ rest).drop
          ((buffer ++ [b]).length - seq.length)).take seq.length = seq := by
        rw [List.drop_append_of_le_length (Nat.sub_le _ _)]
        unfold lastN at heq
        rw [heq]
        exact List.take_left' rfl
      have htrue := containsSeq_intro _ seq _ hocc
      rw [h'] at htrue
      exact Bool.noConfusion htrue
    rw [if_neg hne]
    exact ih (buffer ++ [b]) h'

/-- If the first completed window match happens after consuming exactly
`n` bytes of the remaining stream, the scan returns everything consumed
except the trailing delimiter, plus the unread rest. -/
lemma scanAux_succeeds (seq : List Nat) :
    ∀ (stream buffer : List Nat) (n : Nat),
      1 ≤ n → n ≤ stream.length →
      lastN seq.length (buffer ++ stream.take n) = seq →
      (∀ j, 1 ≤ j → j < n → lastN seq.length (buffer ++ stream.take j) ≠ seq) →
      scanAux seq stream buffer (lastN seq.length buffer) =
        some ((buffer ++ stream.take n).take (buffer.length + n - seq.length),
              stream.drop n) := by
  intro stream
  induction stream with
  | nil =>
    intro buffer n h1 h2 _ _
    simp at h2
    omega
  | cons b rest ih =>
    intro buffer n h1 h2 hmatch hbefore
    obtain ⟨m, rfl⟩ : ∃ m, n = m + 1 := ⟨n - 1, by omega⟩
    simp only [scanAux]
    rw [lastN_step]
    by_cases hm : m = 0
    · subst hm
      have ht1 : (b :: rest).take (0 + 1) = [b] := rfl
      rw [ht1] at hmatch
      rw [if_pos hmatch, ht1]
      have hlen1 : (buffer ++ [b]).length = buffer.length + (0 + 1) := by simp
      rw [hlen1]
      rfl
    · have hb1 : lastN seq.length (buffer ++ [b]) ≠ seq := by
        have := hbefore 1 (by omega) (by omega)
        simpa using this
      rw [if_neg hb1]
      have hmatch' : lastN seq.length ((buffer ++ [b]) ++ rest.take m) = seq := by
        have he : (buffer ++ [b]) ++ rest.take m = buffer ++ (b :: rest).take (m + 1) := by
          simp [List.append_assoc]
        rw [he]
        exact hmatch
      have hbefore' : ∀ j, 1 ≤ j → j < m →
          lastN seq.length ((buffer ++ [b]) ++ rest.take j) ≠ seq := by
        intro j hj1 hj2
        have := hbefore (j + 1) (by omega) (by omega)
        have he : (buffer ++ [b]) ++ rest.take j = buffer ++ (b :: rest).take (j + 1) := by
          simp [List.append_assoc]
        rw [he]
        exact this
      have ihres := ih (buffer ++ [b]) m (by omega) (by simp at h2 ⊢; omega) hmatch' hbefore'
      rw [ihres]
      have e1 : (buffer ++ [b]) ++ rest.take m = buffer ++ (b :: rest).take (m + 1) := by
        simp [List.append_assoc]
      have e2 : (buffer ++ [b]).length + m = buffer.length + (m + 1) := by simp; omega
      rw [e1, e2]
      rfl

lemma parse_untill_eq_ok {stream seq res rest : List Nat} :
    parse_stream_untill_sequence stream seq = .ok (res, rest) ↔
      scanAux seq stream [] [] = some (res, rest) := by
  unfold parse_stream_untill_sequence
  cases h : scanAux seq stream [] [] <;> simp

/-- When the first occurrence of the delimiter in the stream starts
exactly at position `pre.length`, the scan returns `pre` and leaves
exactly `post` unread. -/
lemma scan_exact (pre seq post : List Nat) (hseq : seq ≠ [])
    (hno : ∀ i, i < pre.length →
      ((pre ++ (seq ++ post)).drop i).take seq.length ≠ seq) :
    parse_stream_untill_sequence (pre ++ (seq ++ post)) seq = .ok (pre, post) := by
  rw [parse_untill_eq_ok]
  have hslen : 1 ≤ seq.length := by
    cases seq with
    | nil => exact absurd rfl hseq
    | cons a t => simp
  set stream := pre ++ (seq ++ post) with hstream
  have hlen' : stream.length = pre.length + (seq.length + post.length) := by
    rw [hstream]; simp
  have htake : stream.take (pre.length + seq.length) = pre ++ seq := by
    rw [hstream, ← List.append_assoc]
    exact List.take_left' (by simp)
  have hmatch : lastN seq.length ([] ++ stream.take (pre.length + seq.length)) = seq := by
    rw [List.nil_append, htake]
    unfold lastN
    rw [List.length_append]
    have he : pre.length + seq.length - seq.length = pre.length := by omega
    rw [he]
    exact List.drop_left _ _
  have hbefore : ∀ j, 1 ≤ j → j < pre.length + seq.length →
      lastN seq.length ([] ++ stream.take j) ≠ seq := by
    intro j hj1 hj2 heq
    rw [List.nil_append] at heq
    have hjs : j ≤ stream.length := by omega
    have hlt : (stream.take j).length = j := by rw [List.length_take]; omega
    have hsl : seq.length ≤ j := by
      by_contra hc
      push_neg at hc
      have hlw := congrArg List.length heq
      rw [length_lastN, hlt, Nat.min_eq_right (Nat.le_of_lt hc)] at hlw
      omega
    unfold lastN at heq
    rw [hlt, List.drop_take] at heq
    have he : j - (j - seq.length) = seq.length := by omega
    rw [he] at heq
    exact hno (j - seq.length) (by omega) heq
  have hnil : lastN seq.length ([] : List Nat) = [] := by simp [lastN]
  have hmain := scanAux_succeeds seq stream [] (pre.length + seq.length)
    (by omega) (by omega) hmatch hbefore
  rw [hnil] at hmain
  rw [hmain]
  have h1 : (([] : List Nat) ++ stream.take (pre.length + seq.length)).take
      (List.length ([] : List Nat) + (pre.length + seq.length) - seq.length) = pre := by
    rw [List.nil_append, htake]
    simp only [List.length_nil]
    have he : 0 + (pre.length + seq.length) - seq.length = pre.length := by omega
    rw [he]
    exact List.take_left _ _
  have h2 : stream.drop (pre.length + seq.length) = post := by
    rw [hstream, ← List.append_assoc]
    exact List.drop_left' (by simp)
  rw [h1, h2]

/-- No occurrence of `seq` can start inside `a` when the first byte of
`seq` does not occur in `a` at all (covers the space and CRLF
delimiters, whose first byte never appears in the tokens before them). -/
lemma no_occ_of_first_not_mem (a b seq : List Nat) (x : Nat)
    (hhead : seq.head? = some x) (hmem : x ∉ a) :
    ∀ i, i < a.length → ((a ++ (seq ++ b)).drop i).take seq.length ≠ seq := by
  intro i hi hocc
  obtain ⟨s', rfl⟩ : ∃ s', seq = x :: s' := by
    cases seq with
    | nil => simp at hhead
    | cons z zs => simp at hhead; exact ⟨zs, by rw [hhead]⟩
  rw [List.drop_append_of_le_length (by omega)] at hocc
  cases hd : a.drop i with
  | nil =>
    have : (a.drop i).length = a.length - i := by simp
    rw [hd] at this
    simp at this
    omega
  | cons c t =>
    rw [hd] at hocc
    simp only [List.cons_append, List.length_cons, List.take_succ_cons] at hocc
    injection hocc with h1 _
    apply hmem
    have hc : c ∈ a.drop i := by rw [hd]; simp
    rw [h1] at hc
    exact List.mem_of_mem_drop hc

/-- No occurrence of the two-byte pattern `[x, y]` (with `x ≠ y`) can
start inside `a` when `a` itself does not contain the pattern: an
occurrence straddling the boundary would force `x = y`. -/
lemma no_occ_sep2 (a b : List Nat) (x y : Nat) (hxy : x ≠ y)
    (ha : containsSeq a [x, y] = false) :
    ∀ i, i < a.length → ((a ++ ([x, y] ++ b)).drop i).take 2 ≠ [x, y] := by
  intro i hi hocc
  rw [List.drop_append_of_le_length (by omega)] at hocc
  cases hd : a.drop i with
  | nil =>
    have : (a.drop i).length = a.length - i := by simp
    rw [hd] at this
    simp at this
    omega
  | cons c t =>
    cases t with
    | nil =>
      rw [hd] at hocc
      simp at hocc
      exact hxy hocc.2
    | cons d t' =>
      rw [hd] at hocc
      simp at hocc
      have hta : (a.drop i).take 2 = [x, y] := by
        rw [hd]
        simp [hocc.1, hocc.2]
      exact containsSeq_no_occ ha i hta

/-- Rust's `str::split` / slice `split` on a non-empty pattern `sep`:
scan left to right, cut at each non-overlapping occurrence of `sep`,
and keep empty chunks (`n` matches yield `n + 1` chunks).  The source
only ever splits on the non-empty patterns `" "` and `": "`. -/
def splitOnSeq (sep : List Nat) : List Nat → List (List Nat)
  | [] => [[]]
  | b :: rest =>
    if h : (b :: rest).take sep.length = sep ∧ sep ≠ [] then
      [] :: splitOnSeq sep ((b :: rest).drop sep.length)
    else
      (b :: (splitOnSeq sep rest).headD []) :: (splitOnSeq sep rest).tail
termination_by l => l.length
decreasing_by
  · simp only [List.length_drop, List.length_cons]
    have hs0 : sep.length ≠ 0 := by
      intro h0
      exact h.2 (List.eq_nil_of_length_eq_zero h0)
    omega
  · simp

lemma splitOnSeq_of_no_sep (sep : List Nat) (hsep : sep ≠ []) :
    ∀ l, containsSeq l sep = false → splitOnSeq sep l = [l] := by
  intro l
  induction l with
  | nil =>
    intro _
    unfold splitOnSeq
    rfl
  | cons b rest ih =>
    intro h
    have hne : ¬ ((b :: rest).take sep.length = sep ∧ sep ≠ []) := by
      intro hc
      exact containsSeq_no_occ h 0 (by simpa using hc.1)
    conv_lhs => unfold splitOnSeq
    rw [dif_neg hne]
    have hrest : containsSeq rest sep = false := by
      rw [Bool.eq_false_iff]
      intro htrue
      unfold containsSeq at htrue
      simp only [List.any_eq_true, List.mem_range, beq_iff_eq] at htrue
      obtain ⟨i, _, hocc⟩ := htrue
      have hup := containsSeq_intro (b :: rest) sep (i + 1) (by simpa using hocc)
      rw [h] at hup
      exact Bool.noConfusion hup
    rw [ih hrest]
    rfl

lemma splitOnSeq_append (sep : List Nat) (hsep : sep ≠ []) :
    ∀ (a b : List Nat),
      (∀ i, i < a.length → ((a ++ (sep ++ b)).drop i).take sep.length ≠ sep) →
      splitOnSeq sep (a ++ (sep ++ b)) = a :: splitOnSeq sep b := by
  intro a
  induction a with
  | nil =>
    intro b _
    obtain ⟨s0, sep', rfl⟩ : ∃ s0 sep', sep = s0 :: sep' := by
      cases sep with
      | nil => exact absurd rfl hsep
      | cons s0 sep' => exact ⟨s0, sep', rfl⟩
    rw [List.nil_append, List.cons_append]
    conv_lhs => unfold splitOnSeq
    rw [dif_pos ⟨by rw [← List.cons_append]; exact List.take_left _ _, by simp⟩]
    rw [show (s0 :: (sep' ++ b)).drop (s0 :: sep').length = b from by
      rw [← List.cons_append]; exact List.drop_left _ _]
  | cons c a' ih =>
    intro b hno
    have hne : ¬ ((c :: (a' ++ (sep ++ b))).take sep.length = sep ∧ sep ≠ []) := by
      intro hc
      exact hno 0 (by simp) (by simpa using hc.1)
    rw [List.cons_append]
    conv_lhs => unfold splitOnSeq
    rw [dif_neg hne]
    have hrec := ih b (fun i hi => by
      have hsh := hno (i + 1) (by simp; omega)
      simpa using hsh)
    rw [hrec]
    rfl

/-- Decode one UTF-8 scalar starting at lead byte `b` with following
bytes `rest`: returns the code point and the number of continuation
bytes consumed, or `none` on invalid UTF-8 (stray continuation bytes,
overlong encodings, surrogates, out-of-range code points, truncated
sequences). -/
def utf8Step (b : Nat) (rest : List Nat) : Option (Nat × Nat) :=
  if b < 0x80 then some (b, 0)
  else if b < 0xC2 then none
  else if b < 0xE0 then
    match rest with
    | c1 :: _ =>
      if 0x80 ≤ c1 ∧ c1 < 0xC0 then some ((b - 0xC0) * 0x40 + (c1 - 0x80), 1) else none
    | [] => none
  else if b < 0xF0 then
    match rest with
    | c1 :: c2 :: _ =>
      if (0x80 ≤ c1 ∧ c1 < 0xC0) ∧ (0x80 ≤ c2 ∧ c2 < 0xC0) then
        if (b - 0xE0) * 0x1000 + (c1 - 0x80) * 0x40 + (c2 - 0x80) < 0x800 then none
        else if 0xD800 ≤ (b - 0xE0) * 0x1000 + (c1 - 0x80) * 0x40 + (c2 - 0x80) ∧
            (b - 0xE0) * 0x1000 + (c1 - 0x80) * 0x40 + (c2 - 0x80) < 0xE000 then none
        else some ((b - 0xE0) * 0x1000 + (c1 - 0x80) * 0x40 + (c2 - 0x80), 2)
      else none
    | _ => none
  else if b < 0xF5 then
    match rest with
    | c1 :: c2 :: c3 :: _ =>
      if (0x80 ≤ c1 ∧ c1 < 0xC0) ∧ (0x80 ≤ c2 ∧ c2 < 0xC0) ∧ (0x80 ≤ c3 ∧ c3 < 0xC0) then
        if (b - 0xF0) * 0x40000 + (c1 - 0x80) * 0x1000 + (c2 - 0x80) * 0x40 + (c3 - 0x80)
            < 0x10000 then none
        else if 0x110000 ≤
            (b - 0xF0) * 0x40000 + (c1 - 0x80) * 0x1000 + (c2 - 0x80) * 0x40 + (c3 - 0x80)
          then none
        else some ((b - 0xF0) * 0x40000 + (c1 - 0x80) * 0x1000 + (c2 - 0x80) * 0x40 + (c3 - 0x80), 3)
      else none
    | _ => none
  else none

/-- UTF-8 validation and decoding of a byte list into code points,
modelling `String::from_utf8` / `read_to_string`: `none` on invalid
UTF-8. -/
def utf8Decode : List Nat → Option (List Nat)
  | [] => some []
  | b :: rest =>
    match utf8Step b rest with
    | none => none
    | some (cp, k) => (utf8Decode (rest.drop k)).map (cp :: ·)
termination_by l => l.length
decreasing_by
  simp only [List.length_cons, List.length_drop]
  omega

/-- ASCII bytes decode to themselves. -/
lemma utf8Decode_ascii : ∀ {l : List Nat}, (∀ b ∈ l, b < 128) → utf8Decode l = some l := by
  intro l
  induction l with
  | nil =>
    intro _
    unfold utf8Decode
    rfl
  | cons b rest ih =>
    intro h
    have hb : b < 128 := h b (by simp)
    have hstep : utf8Step b rest = some (b, 0) := by
      unfold utf8Step
      rw [if_pos hb]
    unfold utf8Decode
    rw [hstep]
    simp only [List.drop_zero]
    rw [ih (fun x hx => h x (by simp [hx]))]
    rfl

/-- `char::is_whitespace` from Rust, on code points: the `White_Space`
Unicode property. -/
def isRustWhitespace (c : Nat) : Bool :=
  c == 9 || c == 10 || c == 11 || c == 12 || c == 13 || c == 32 ||
  c == 0x85 || c == 0xA0 || c == 0x1680 ||
  (decide (0x2000 ≤ c) && decide (c ≤ 0x200A)) ||
  c == 0x2028 || c == 0x2029 || c == 0x202F || c == 0x205F || c == 0x3000

/-- `str::trim`: remove leading and trailing whitespace. -/
def trim (l : List Nat) : List Nat :=
  ((l.dropWhile isRustWhitespace).reverse.dropWhile isRustWhitespace).reverse

/-- The error enumeration of `http/errors.rs`; token payloads are the
decoded offending strings. -/
inductive HttpError where
  | UnknownMethodError (token : List Nat)
  | UnknownHttpVersion (token : List Nat)
deriving DecidableEq

/-- All the ways the parsing chain can stop.  `httpError` wraps the
typed `HttpError` values; `ioError` models an `std::io::Error` such as
the scanner's "No sequence found in stream"; `utf8Error` models a
failed UTF-8 decode; `panicked` models a Rust panic (here always
`Option::unwrap` on `None`), which crashes the thread instead of
returning a `Result::Err` value. -/
inductive Failure where
  | httpError (e : HttpError)
  | ioError (msg : String)
  | utf8Error
  | panicked
deriving DecidableEq

/-- `HttpRequestMethod` of `http/request.rs` (the richer revision; the
`main.rs` near-duplicate supports only `GET`). -/
inductive HttpRequestMethod where
  | Get
  | Post
  | Delete
  | Patch
  | Put
deriving DecidableEq

/-- `HttpRequestMethod::from_str` (request.rs:17-27). -/
def HttpRequestMethod.from_str (s : List Nat) : Except HttpError HttpRequestMethod :=
  if s = str ("GET") then .ok .Get
  else if s = str ("POST") then .ok .Post
  else if s = str ("DELETE") then .ok .Delete
  else if s = str ("PATCH") then .ok .Patch
  else if s = str ("PUT") then .ok .Put
  else .error (.UnknownMethodError s)

/-- `HttpVersion` (http.rs). -/
inductive HttpVersion where
  | Http1_0
  | Http1_1
  | Http2_0
deriving DecidableEq

/-- `HttpVersion::from_str` (http.rs:15-22). -/
def HttpVersion.from_str (s : List Nat) : Except HttpError HttpVersion :=
  if s = str ("HTTP/1.0") then .ok .Http1_0
  else if s = str ("HTTP/1.1") then .ok .Http1_1
  else if s = str ("HTTP/2.0") then .ok .Http2_0
  else .error (.UnknownHttpVersion s)

/-- `HttpRequestLine` (request.rs:30-34): fields in source order. -/
structure HttpRequestLine where
  version : HttpVersion
  target : List Nat
  method : HttpRequestMethod
deriving DecidableEq

/-- `HttpRequestLine::from_stream` (request.rs:45-60): scan one
CRLF-terminated line, split it on the space byte, take the first three
words in order (a missing word is an `unwrap` panic), decode each,
then validate method and version.  Statement order of the source is
preserved: decode word 1, unwrap word 2, decode word 2, unwrap word 3,
decode word 3, validate method, validate version. -/
def HttpRequestLine.from_stream (stream : List Nat) :
    Except Failure (HttpRequestLine × List Nat) :=
  match parse_stream_untill_sequence stream crlf with
  | .error e => .error (.ioError e)
  | .ok (buffer, rest) =>
    match splitOnSeq [32] buffer with
    | [] => .error .panicked
    | w1 :: ws =>
      match utf8Decode w1 with
      | none => .error .utf8Error
      | some method =>
        match ws with
        | [] => .error .panicked
        | w2 :: ws2 =>
          match utf8Decode w2 with
          | none => .error .utf8Error
          | some target =>
            match ws2 with
            | [] => .error .panicked
            | w3 :: _ =>
              match utf8Decode w3 with
              | none => .error .utf8Error
              | some version =>
                match HttpRequestMethod.from_str method with
                | .error e => .error (.httpError e)
                | .ok m =>
                  match HttpVersion.from_str version with
                  | .error e => .error (.httpError e)
                  | .ok v => .ok (⟨v, target, m⟩, rest)

/-- When the delimiter never occurs in the stream, the scan fails with
the source's io error. -/
lemma scan_none {stream seq : List Nat} (h : containsSeq stream seq = false) :
    parse_stream_untill_sequence stream seq = .error ("No sequence found in stream") := by
  unfold parse_stream_untill_sequence
  have hfail : scanAux seq stream [] (lastN seq.length []) = none :=
    scanAux_fails seq stream [] (by rwa [List.nil_append])
  rw [lastN_nil] at hfail
  rw [hfail]

/-- A successful scan consumes at least one byte of the stream. -/
lemma scanAux_rest_lt (seq : List Nat) :
    ∀ (stream buffer seqbuf res rest : List Nat),
      scanAux seq stream buffer seqbuf = some (res, rest) → rest.length < stream.length := by
  intro stream
  induction stream with
  | nil =>
    intro buffer seqbuf res rest h
    exact absurd h (by simp [scanAux])
  | cons b s' ih =>
    intro buffer seqbuf res rest h
    simp only [scanAux] at h
    split at h
    all_goals split at h
    any_goals
      (injection h with h'
       have hsnd : s' = rest := congrArg Prod.snd h'
       rw [← hsnd]
       simp)
    all_goals
      (have hlt := ih _ _ _ _ h
       simp only [List.length_cons]
       omega)

/-- The header-reading loop of `HttpRequest::from_stream`
(request.rs:109-120): scan a CRLF-terminated line, decode it, trim it;
an empty trimmed line ends the block, otherwise split the line on
`": "`, take the first two parts (`unwrap`-panic when the second is
missing), push the pair, and repeat. -/
def parseHeadersLoop (stream : List Nat) (headers : List (List Nat × List Nat)) :
    Except Failure (List (List Nat × List Nat) × List Nat) :=
  match hscan : parse_stream_untill_sequence stream crlf with
  | .error e => .error (.ioError e)
  | .ok (bytes, rest) =>
    match utf8Decode bytes with
    | none => .error .utf8Error
    | some s =>
      if (trim s).length = 0 then .ok (headers, rest)
      else
        match splitOnSeq (str (": ")) (trim s) with
        | chunk1 :: chunk2 :: _ => parseHeadersLoop rest (headers ++ [(chunk1, chunk2)])
        | _ => .error .panicked
termination_by stream.length
decreasing_by
  exact scanAux_rest_lt crlf stream [] [] bytes rest (parse_untill_eq_ok.mp hscan)

/-- The header-block phase of `HttpRequest::from_stream`
(request.rs:100-120): the source reads and processes one line *before*
entering the loop — pushing a pair when that first line is non-empty
after trimming and silently skipping it when it is empty — and only
the loop's own empty-line test can end the block. -/
def parseHeaders (stream : List Nat) :
    Except Failure (List (List Nat × List Nat) × List Nat) :=
  match parse_stream_untill_sequence stream crlf with
  | .error e => .error (.ioError e)
  | .ok (bytes, rest) =>
    match utf8Decode bytes with
    | none => .error .utf8Error
    | some s =>
      if 0 < (trim s).length then
        match splitOnSeq (str (": ")) (trim s) with
        | chunk1 :: chunk2 :: _ => parseHeadersLoop rest [(chunk1, chunk2)]
        | _ => .error .panicked
      else parseHeadersLoop rest []

/-- `HttpRequest` (request.rs:89-93). -/
structure HttpRequest where
  request_line : HttpRequestLine
  headers : List (List Nat × List Nat)
  body : Option (List Nat)
deriving DecidableEq

/-- `HttpRequest::from_stream` (request.rs:96-126): request line, then
header block; the body is never read. -/
def HttpRequest.from_stream (stream : List Nat) :
    Except Failure (HttpRequest × List Nat) :=
  match HttpRequestLine.from_stream stream with
  | .error e => .error e
  | .ok (request_line, rest) =>
    match parseHeaders rest with
    | .error e => .error e
    | .ok (headers, rest₂) => .ok (⟨request_line, headers, none⟩, rest₂)

/-- `HttpStatus` (response.rs:3-6). -/
inductive HttpStatus where
  | Ok
  | NotFound
deriving DecidableEq

/-- `HttpResponseStatusLine` (response.rs:8-11). -/
structure HttpResponseStatusLine where
  version : HttpVersion
  status : HttpStatus
deriving DecidableEq

/-- `HttpResponseStatusLine::new` (response.rs:14-16). -/
def HttpResponseStatusLine.new (version : HttpVersion) (status : HttpStatus) :
    HttpResponseStatusLine :=
  ⟨version, status⟩

/-- `HttpResponseStatusLine::to_string` (response.rs:18-30). -/
def HttpResponseStatusLine.to_string (s : HttpResponseStatusLine) : String :=
  (match s.version with
   | .Http1_0 => "HTTP/1.0"
   | .Http1_1 => "HTTP/1.1"
   | .Http2_0 => "HTTP/2.0") ++ " " ++
  (match s.status with
   | .Ok => "200 OK"
   | .NotFound => "404 Not Found")

/-- `HttpResponse` (response.rs:33-37).  Built and serialized entirely
at the string level, so the Lean `String` type models Rust strings
here; `String.utf8ByteSize` is Rust's `str::len`. -/
structure HttpResponse where
  status_line : HttpResponseStatusLine
  headers : List (String × String)
  content : String
deriving DecidableEq

/-- `HttpResponse::new` (response.rs:40-46): status defaults to `Ok`,
headers and content empty. -/
def HttpResponse.new (version : HttpVersion) : HttpResponse :=
  { status_line := HttpResponseStatusLine.new version .Ok
    content := ""
    headers := [] }

/-- `HttpResponse::add_header` (response.rs:48-52): append, no dedup. -/
def HttpResponse.add_header (r : HttpResponse) (header_name header_value : String) :
    HttpResponse :=
  { r with headers := r.headers ++ [(header_name, header_value)] }

/-- `HttpResponse::set_status` (response.rs:54-57). -/
def HttpResponse.set_status (r : HttpResponse) (status : HttpStatus) : HttpResponse :=
  { r with status_line := { r.status_line with status := status } }

/-- `HttpResponse::add_content` (response.rs:59-62): replace the body. -/
def HttpResponse.add_content (r : HttpResponse) (content : String) : HttpResponse :=
  { r with content := content }

/-- `HttpResponse::write_text` (response.rs:64-68): `Content-Type`,
then `Content-Length` as the decimal byte length, then the body. -/
def HttpResponse.write_text (r : HttpResponse) (text : String) : HttpResponse :=
  ((r.add_header ("Content-Type") ("text/plain")).add_header ("Content-Length")
    (toString text.utf8ByteSize)).add_content text

/-- `HttpResponse::to_string` (response.rs:70-80): status line, CRLF,
one `name: value` CRLF line per header in insertion order, a blank
CRLF, then the raw content. -/
def HttpResponse.to_string (r : HttpResponse) : String :=
  (r.headers.foldl (fun response p => response ++ (p.1 ++ ": " ++ p.2 ++ "\r\n"))
    (r.status_line.to_string ++ "\r\n")) ++ "\r\n" ++ r.content

/-- The token of each supported method, as in the `from_str` match. -/
def methodToken : HttpRequestMethod → List Nat
  | .Get => str ("GET")
  | .Post => str ("POST")
  | .Delete => str ("DELETE")
  | .Patch => str ("PATCH")
  | .Put => str ("PUT")

/-- The token of each supported version, as in the `from_str` match. -/
def versionToken : HttpVersion → List Nat
  | .Http1_0 => str ("HTTP/1.0")
  | .Http1_1 => str ("HTTP/1.1")
  | .Http2_0 => str ("HTTP/2.0")

lemma methodToken_props (m : HttpRequestMethod) :
    ∀ b ∈ methodToken m, b < 128 ∧ b ≠ 32 ∧ b ≠ 13 ∧ b ≠ 10 := by
  cases m <;> decide

lemma versionToken_props (v : HttpVersion) :
    ∀ b ∈ versionToken v, b < 128 ∧ b ≠ 32 ∧ b ≠ 13 ∧ b ≠ 10 := by
  cases v <;> decide

lemma from_str_methodToken (m : HttpRequestMethod) :
    HttpRequestMethod.from_str (methodToken m) = .ok m := by
  cases m <;> decide

lemma from_str_versionToken (v : HttpVersion) :
    HttpVersion.from_str (versionToken v) = .ok v := by
  cases v <;> decide

lemma not_mem_append {x : Nat} {p q : List Nat} (hp : x ∉ p) (hq : x ∉ q) :
    x ∉ p ++ q := by
  intro h
  rcases List.mem_append.mp h with h | h
  · exact hp h
  · exact hq h

lemma not_mem_of_props {l : List Nat}
    (h : ∀ b ∈ l, b < 128 ∧ b ≠ 32 ∧ b ≠ 13 ∧ b ≠ 10) :
    32 ∉ l ∧ 13 ∉ l ∧ 10 ∉ l :=
  ⟨fun hm => (h 32 hm).2.1 rfl, fun hm => (h 13 hm).2.2.1 rfl,
   fun hm => (h 10 hm).2.2.2 rfl⟩

lemma containsSeq1_false_of_not_mem {l : List Nat} {x : Nat} (hx : x ∉ l) :
    containsSeq l [x] = false := by
  rw [Bool.eq_false_iff]
  intro h
  unfold containsSeq at h
  simp only [List.any_eq_true, List.mem_range, beq_iff_eq] at h
  obtain ⟨i, _, hocc⟩ := h
  cases hd : l.drop i with
  | nil => rw [hd] at hocc; simp at hocc
  | cons c t =>
    rw [hd] at hocc
    simp at hocc
    apply hx
    have hc : c ∈ l.drop i := by rw [hd]; simp
    rw [hocc] at hc
    exact List.mem_of_mem_drop hc

/-- Core reduction of `HttpRequestLine::from_stream` on a stream whose
first line is CRLF-free and splits into at least three ASCII words:
the outcome is decided by validating the first and third word. -/
lemma from_stream_reduce (line rest w1 w2 w3 : List Nat) (ws : List (List Nat))
    (hline : containsSeq line crlf = false)
    (hwords : splitOnSeq [32] line = w1 :: w2 :: w3 :: ws)
    (ha1 : ∀ b ∈ w1, b < 128) (ha2 : ∀ b ∈ w2, b < 128) (ha3 : ∀ b ∈ w3, b < 128) :
    HttpRequestLine.from_stream (line ++ (crlf ++ rest)) =
      (match HttpRequestMethod.from_str w1 with
       | .error e => .error (.httpError e)
       | .ok m =>
         match HttpVersion.from_str w3 with
         | .error e => .error (.httpError e)
         | .ok v => .ok (⟨v, w2, m⟩, rest)) := by
  have hscan : parse_stream_untill_sequence (line ++ (crlf ++ rest)) crlf =
      .ok (line, rest) := by
    apply scan_exact line crlf rest (by decide)
    intro i hi
    exact no_occ_sep2 line rest 13 10 (by decide) hline i hi
  simp only [HttpRequestLine.from_stream, hscan, hwords,
    utf8Decode_ascii ha1, utf8Decode_ascii ha2, utf8Decode_ascii ha3]

/-- C2 (confirmed): for every supported method, supported version and
space/CR/LF-free ASCII target, the request line `"M T V\r\n"` parses
into exactly that method, that uninterpreted target, and that version,
leaving the rest of the stream unread. -/
theorem requestLine_wellFormed_parses (m : HttpRequestMethod) (v : HttpVersion)
    (T rest : List Nat) (hT : ∀ b ∈ T, b < 128 ∧ b ≠ 32 ∧ b ≠ 13 ∧ b ≠ 10) :
    HttpRequestLine.from_stream
        (methodToken m ++ ([32] ++ (T ++ ([32] ++ (versionToken v ++ (crlf ++ rest)))))) =
      .ok (⟨v, T, m⟩, rest) := by
  obtain ⟨hm32, hm13, _⟩ := not_mem_of_props (methodToken_props m)
  obtain ⟨hT32, hT13, _⟩ := not_mem_of_props hT
  obtain ⟨hv32, hv13, _⟩ := not_mem_of_props (versionToken_props v)
  have hstream : methodToken m ++ ([32] ++ (T ++ ([32] ++ (versionToken v ++ (crlf ++ rest))))) =
      (methodToken m ++ ([32] ++ (T ++ ([32] ++ versionToken v)))) ++ (crlf ++ rest) := by
    simp [List.append_assoc]
  rw [hstream]
  have hline : containsSeq (methodToken m ++ ([32] ++ (T ++ ([32] ++ versionToken v))))
      crlf = false := by
    apply containsSeq2_false_of_not_mem
    exact not_mem_append hm13 (not_mem_append (by decide)
      (not_mem_append hT13 (not_mem_append (by decide) hv13)))
  have hwords : splitOnSeq [32] (methodToken m ++ ([32] ++ (T ++ ([32] ++ versionToken v)))) =
      methodToken m :: T :: versionToken v :: [] := by
    rw [splitOnSeq_append [32] (by decide) (methodToken m) _
      (no_occ_of_first_not_mem _ _ _ 32 rfl hm32)]
    rw [splitOnSeq_append [32] (by decide) T _
      (no_occ_of_first_not_mem _ _ _ 32 rfl hT32)]
    rw [splitOnSeq_of_no_sep [32] (by decide) _ (containsSeq1_false_of_not_mem hv32)]
  rw [from_stream_reduce _ rest _ _ _ _ hline hwords
    (fun b hb => (methodToken_props m b hb).1) (fun b hb => (hT b hb).1)
    (fun b hb => (versionToken_props v b hb).1)]
  rw [from_str_methodToken, from_str_versionToken]

/-- C2 witness: `"GET /index.html HTTP/1.1\r\n"`. -/
theorem requestLine_wellFormed_parses_witness :
    HttpRequestLine.from_stream
        (methodToken .Get ++ ([32] ++ (str ("/index.html") ++
          ([32] ++ (versionToken .Http1_1 ++ (crlf ++ [])))))) =
      .ok (⟨.Http1_1, str ("/index.html"), .Get⟩, []) :=
  requestLine_wellFormed_parses .Get .Http1_1 (str ("/index.html")) [] (by decide)

/-- A token outside the method vocabulary fails `from_str` with the
`UnknownMethodError` variant carrying that very token. -/
lemma from_str_unknown {tok : List Nat}
    (h : tok ∉ [str ("GET"), str ("POST"), str ("DELETE"), str ("PATCH"), str ("PUT")]) :
    HttpRequestMethod.from_str tok = .error (.UnknownMethodError tok) := by
  unfold HttpRequestMethod.from_str
  simp only [List.mem_cons, not_or] at h
  obtain ⟨h1, h2, h3, h4, h5, _⟩ := h
  rw [if_neg h1, if_neg h2, if_neg h3, if_neg h4, if_neg h5]

/-- C6 (confirmed): parsing a request line whose method token is not in
the supported vocabulary fails with `UnknownMethodError` carrying
exactly the offending token (the `http/request.rs` revision; the
`main.rs` near-duplicate's variant carries no payload). -/
theorem unknownMethod_error_carries_token (tok T V2 rest : List Nat)
    (htok : ∀ b ∈ tok, b < 128 ∧ b ≠ 32 ∧ b ≠ 13 ∧ b ≠ 10)
    (hT : ∀ b ∈ T, b < 128 ∧ b ≠ 32 ∧ b ≠ 13 ∧ b ≠ 10)
    (hV : ∀ b ∈ V2, b < 128 ∧ b ≠ 32 ∧ b ≠ 13 ∧ b ≠ 10)
    (hnm : tok ∉ [str ("GET"), str ("POST"), str ("DELETE"), str ("PATCH"), str ("PUT")]) :
    HttpRequestLine.from_stream (tok ++ ([32] ++ (T ++ ([32] ++ (V2 ++ (crlf ++ rest)))))) =
      .error (.httpError (.UnknownMethodError tok)) := by
  obtain ⟨ht32, ht13, _⟩ := not_mem_of_props htok
  obtain ⟨hT32, hT13, _⟩ := not_mem_of_props hT
  obtain ⟨hv32, hv13, _⟩ := not_mem_of_props hV
  have hstream : tok ++ ([32] ++ (T ++ ([32] ++ (V2 ++ (crlf ++ rest))))) =
      (tok ++ ([32] ++ (T ++ ([32] ++ V2)))) ++ (crlf ++ rest) := by
    simp [List.append_assoc]
  rw [hstream]
  have hline : containsSeq (tok ++ ([32] ++ (T ++ ([32] ++ V2)))) crlf = false := by
    apply containsSeq2_false_of_not_mem
    exact not_mem_append ht13 (not_mem_append (by decide)
      (not_mem_append hT13 (not_mem_append (by decide) hv13)))
  have hwords : splitOnSeq [32] (tok ++ ([32] ++ (T ++ ([32] ++ V2)))) =
      tok :: T :: V2 :: [] := by
    rw [splitOnSeq_append [32] (by decide) tok _
      (no_occ_of_first_not_mem _ _ _ 32 rfl ht32)]
    rw [splitOnSeq_append [32] (by decide) T _
      (no_occ_of_first_not_mem _ _ _ 32 rfl hT32)]
    rw [splitOnSeq_of_no_sep [32] (by decide) _ (containsSeq1_false_of_not_mem hv32)]
  rw [from_stream_reduce _ rest _ _ _ _ hline hwords
    (fun b hb => (htok b hb).1) (fun b hb => (hT b hb).1) (fun b hb => (hV b hb).1)]
  rw [from_str_unknown hnm]

/-- C6 witness: the unsupported token `"BREW"`. -/
theorem unknownMethod_error_carries_token_witness :
    HttpRequestLine.from_stream
        (str ("BREW") ++ ([32] ++ (str ("/") ++
          ([32] ++ (str ("HTTP/1.1") ++ (crlf ++ [])))))) =
      .error (.httpError (.UnknownMethodError (str ("BREW")))) :=
  unknownMethod_error_carries_token (str ("BREW")) (str ("/")) (str ("HTTP/1.1")) []
    (by decide) (by decide) (by decide) (by decide)

/-- C10 (confirmed): extra space-separated material after the version
token is neither validated nor reported: the request line parses to
exactly the same `HttpRequestLine` as without it.  `extra` may contain
anything ASCII-or-not as long as CRLF does not occur in it; it is
never even UTF-8-decoded. -/
theorem requestLine_extra_tokens_ignored (m : HttpRequestMethod) (v : HttpVersion)
    (T extra rest : List Nat)
    (hT : ∀ b ∈ T, b < 128 ∧ b ≠ 32 ∧ b ≠ 13 ∧ b ≠ 10)
    (hextra : containsSeq extra crlf = false) :
    HttpRequestLine.from_stream
        (methodToken m ++ ([32] ++ (T ++ ([32] ++ (versionToken v ++
          ([32] ++ (extra ++ (crlf ++ rest)))))))) =
      .ok (⟨v, T, m⟩, rest) := by
  obtain ⟨hm32, hm13, _⟩ := not_mem_of_props (methodToken_props m)
  obtain ⟨hT32, hT13, _⟩ := not_mem_of_props hT
  obtain ⟨hv32, hv13, _⟩ := not_mem_of_props (versionToken_props v)
  have hstream : methodToken m ++ ([32] ++ (T ++ ([32] ++ (versionToken v ++
      ([32] ++ (extra ++ (crlf ++ rest))))))) =
      (methodToken m ++ ([32] ++ (T ++ ([32] ++ (versionToken v ++ ([32] ++ extra)))))) ++
        (crlf ++ rest) := by
    simp [List.append_assoc]
  rw [hstream]
  have hline : containsSeq
      (methodToken m ++ ([32] ++ (T ++ ([32] ++ (versionToken v ++ ([32] ++ extra))))))
      crlf = false := by
    have hsplit : methodToken m ++ ([32] ++ (T ++ ([32] ++ (versionToken v ++
        ([32] ++ extra))))) =
        (methodToken m ++ ([32] ++ (T ++ ([32] ++ (versionToken v ++ [32]))))) ++ extra := by
      simp [List.append_assoc]
    rw [hsplit]
    apply containsSeq2_append_false _ hextra
    exact not_mem_append hm13 (not_mem_append (by decide)
      (not_mem_append hT13 (not_mem_append (by decide)
        (not_mem_append hv13 (by decide)))))
  have hwords : splitOnSeq [32]
      (methodToken m ++ ([32] ++ (T ++ ([32] ++ (versionToken v ++ ([32] ++ extra)))))) =
      methodToken m :: T :: versionToken v :: splitOnSeq [32] extra := by
    rw [splitOnSeq_append [32] (by decide) (methodToken m) _
      (no_occ_of_first_not_mem _ _ _ 32 rfl hm32)]
    rw [splitOnSeq_append [32] (by decide) T _
      (no_occ_of_first_not_mem _ _ _ 32 rfl hT32)]
    rw [splitOnSeq_append [32] (by decide) (versionToken v) _
      (no_occ_of_first_not_mem _ _ _ 32 rfl hv32)]
  rw [from_stream_reduce _ rest _ _ _ _ hline hwords
    (fun b hb => (methodToken_props m b hb).1) (fun b hb => (hT b hb).1)
    (fun b hb => (versionToken_props v b hb).1)]
  rw [from_str_methodToken, from_str_versionToken]

/-- C10 witness: `"GET / HTTP/1.1 extra junk\r\n"` parses as if the two
trailing tokens were absent. -/
theorem requestLine_extra_tokens_ignored_witness :
    HttpRequestLine.from_stream
        (methodToken .Get ++ ([32] ++ (str ("/") ++ ([32] ++ (versionToken .Http1_1 ++
          ([32] ++ (str ("extra junk") ++ (crlf ++ [])))))))) =
      .ok (⟨.Http1_1, str ("/"), .Get⟩, []) :=
  requestLine_extra_tokens_ignored .Get .Http1_1 (str ("/")) (str ("extra junk")) []
    (by decide) (by decide)

/-- The spec's status-text table: Ok maps to 200 OK, NotFound to
404 Not Found (spec-side definition, for comparison with the code). -/
def specStatusText : HttpStatus → String
  | .Ok => "200 OK"
  | .NotFound => "404 Not Found"

/-- The spec's version-text table (spec-side definition). -/
def specVersionText : HttpVersion → String
  | .Http1_0 => "HTTP/1.0"
  | .Http1_1 => "HTTP/1.1"
  | .Http2_0 => "HTTP/2.0"

lemma foldl_headers_eq (hs : List (String × String)) :
    ∀ s : String,
      hs.foldl (fun response p => response ++ (p.1 ++ ": " ++ p.2 ++ "\r\n")) s =
        s ++ (hs.map (fun p => p.1 ++ ": " ++ p.2 ++ "\r\n")).foldr (· ++ ·) "" := by
  induction hs with
  | nil => intro s; simp
  | cons p t ih =>
    intro s
    simp only [List.foldl_cons, List.map_cons, List.foldr_cons]
    rw [ih, String.append_assoc]

/-- C3 (corrected): the scan returns everything before the *first*
occurrence of the delimiter and consumes exactly up to its end — but
only under the condition that no occurrence of the delimiter starts
before position `pre.length` (the original claim's "prefix contains no
occurrence" is too weak when the delimiter can straddle the boundary,
see the counterexample). -/
theorem scanner_returns_before_first_delimiter (pre seq post : List Nat) (hseq : seq ≠ [])
    (hno : ∀ i, i < pre.length → ((pre ++ (seq ++ post)).drop i).take seq.length ≠ seq) :
    parse_stream_untill_sequence (pre ++ (seq ++ post)) seq = .ok (pre, post) :=
  scan_exact pre seq post hseq hno

/-- C3 witness: a concrete well-behaved stream. -/
theorem scanner_returns_before_first_delimiter_witness :
    parse_stream_untill_sequence (str ("GET") ++ (crlf ++ str ("xy"))) crlf =
      .ok (str ("GET"), str ("xy")) :=
  scanner_returns_before_first_delimiter (str ("GET")) crlf (str ("xy"))
    (by decide) (by decide)

/-- C3 counterexample: stream `"aaa"`, delimiter `"aa"`, prefix `"a"`
(which contains no occurrence of `"aa"`), rest `""`.  The claim
predicts result `"a"` with nothing left unread; the code matches the
straddling occurrence first and returns `""` with one byte unread. -/
theorem scanner_overlapping_delimiter_cex :
    containsSeq [97] [97, 97] = false ∧
    parse_stream_untill_sequence ([97] ++ ([97, 97] ++ [])) [97, 97] = .ok ([], [97]) ∧
    parse_stream_untill_sequence ([97] ++ ([97, 97] ++ [])) [97, 97] ≠ .ok ([97], []) := by
  decide

/-- C4 (confirmed): when the delimiter never occurs in the (finite)
stream, the scan fails with the "No sequence found in stream" io error
and returns no partial data. -/
theorem scanner_unterminated_errors (stream seq : List Nat)
    (h : containsSeq stream seq = false) :
    parse_stream_untill_sequence stream seq = .error ("No sequence found in stream") :=
  scan_none h

/-- C4 witness: a request fragment with no terminating CRLF. -/
theorem scanner_unterminated_errors_witness :
    containsSeq (str ("GET / HTTP/1.1")) crlf = false ∧
    parse_stream_untill_sequence (str ("GET / HTTP/1.1")) crlf =
      .error ("No sequence found in stream") :=
  ⟨by decide, scanner_unterminated_errors _ _ (by decide)⟩

/-- C8 (confirmed): serialization is exactly the status-line text
(`"200 OK"` for Ok, `"404 Not Found"` for NotFound, after the version
text and a space) followed by CRLF, one `"name: value\r\n"` line per
header in insertion order, one CRLF, then the content with no trailing
terminator; and the concrete empty response serializes to
`"HTTP/1.1 200 OK\r\n\r\n"`. -/
theorem response_serialization_format :
    (∀ r : HttpResponse,
      HttpResponse.to_string r =
        specVersionText r.status_line.version ++ " " ++ specStatusText r.status_line.status ++
          "\r\n" ++
          ((r.headers.map (fun p => p.1 ++ ": " ++ p.2 ++ "\r\n")).foldr (· ++ ·) "" ++
            ("\r\n" ++ r.content))) ∧
    HttpResponse.to_string (HttpResponse.new .Http1_1) = "HTTP/1.1 200 OK\r\n\r\n" := by
  constructor
  · intro r
    obtain ⟨⟨v, st⟩, hs, c⟩ := r
    show (hs.foldl _ (HttpResponseStatusLine.to_string ⟨v, st⟩ ++ "\r\n")) ++ "\r\n" ++ c = _
    rw [foldl_headers_eq]
    cases v <;> cases st <;>
      simp [HttpResponseStatusLine.to_string, specVersionText, specStatusText,
        String.append_assoc]
  · rfl

lemma parseHeadersLoop_nil (acc : List (List Nat × List Nat)) :
    parseHeadersLoop [] acc = .error (.ioError ("No sequence found in stream")) := by
  unfold parseHeadersLoop
  rfl

/-- One loop iteration on an empty line: the header block ends without
error and without touching the accumulated headers. -/
lemma parseHeadersLoop_end (acc : List (List Nat × List Nat)) (rest : List Nat) :
    parseHeadersLoop (crlf ++ rest) acc = .ok (acc, rest) := by
  have hscan : parse_stream_untill_sequence (crlf ++ rest) crlf = .ok ([], rest) := by
    have hx := scan_exact [] crlf rest (by decide) (fun i hi => absurd hi (by simp))
    simpa using hx
  conv_lhs => unfold parseHeadersLoop
  split
  · next e heq =>
    rw [hscan] at heq
    exact absurd heq (by simp)
  · next bytes rest₁ heq =>
    rw [hscan] at heq
    injection heq with h'
    have hb : ([] : List Nat) = bytes := congrArg Prod.fst h'
    have hr : rest = rest₁ := congrArg Prod.snd h'
    subst hb
    subst hr
    rw [utf8Decode_ascii (by simp)]
    simp [trim]

lemma parseHeadersLoop_end' (acc : List (List Nat × List Nat)) :
    parseHeadersLoop crlf acc = .ok (acc, []) := by
  have h := parseHeadersLoop_end acc []
  rwa [List.append_nil] at h

/-- One loop iteration on a non-empty, trim-invariant line that splits
into at least two chunks: push the first two chunks and continue. -/
lemma parseHeadersLoop_push (line rest : List Nat) (acc : List (List Nat × List Nat))
    (nm vl : List Nat) (ws : List (List Nat))
    (hline : containsSeq line crlf = false)
    (hascii : ∀ b ∈ line, b < 128)
    (htr : trim line = line) (hne : line ≠ [])
    (hsplit : splitOnSeq (str (": ")) line = nm :: vl :: ws) :
    parseHeadersLoop (line ++ (crlf ++ rest)) acc =
      parseHeadersLoop rest (acc ++ [(nm, vl)]) := by
  have hscan : parse_stream_untill_sequence (line ++ (crlf ++ rest)) crlf =
      .ok (line, rest) := by
    apply scan_exact line crlf rest (by decide)
    exact no_occ_sep2 line rest 13 10 (by decide) hline
  conv_lhs => unfold parseHeadersLoop
  split
  · next e heq =>
    rw [hscan] at heq
    exact absurd heq (by simp)
  · next bytes rest₁ heq =>
    rw [hscan] at heq
    injection heq with h'
    have hb : line = bytes := congrArg Prod.fst h'
    have hr : rest = rest₁ := congrArg Prod.snd h'
    subst hb
    subst hr
    rw [utf8Decode_ascii hascii]
    simp only [htr, hsplit]
    rw [if_neg (fun h0 => hne (List.eq_nil_of_length_eq_zero h0))]

/-- Reduction of the header-block phase over its unrolled first read,
on a stream whose first line is CRLF-free ASCII. -/
lemma parseHeaders_line (line rest : List Nat)
    (hline : containsSeq line crlf = false)
    (hascii : ∀ b ∈ line, b < 128) :
    parseHeaders (line ++ (crlf ++ rest)) =
      (if 0 < (trim line).length then
        match splitOnSeq (str (": ")) (trim line) with
        | chunk1 :: chunk2 :: _ => parseHeadersLoop rest [(chunk1, chunk2)]
        | _ => .error .panicked
      else parseHeadersLoop rest []) := by
  have hscan : parse_stream_untill_sequence (line ++ (crlf ++ rest)) crlf =
      .ok (line, rest) := by
    apply scan_exact line crlf rest (by decide)
    exact no_occ_sep2 line rest 13 10 (by decide) hline
  simp only [parseHeaders, hscan, utf8Decode_ascii hascii]

/-- The header-block phase on the exhausted-after-CRLF stream: the
first (empty) line is skipped, then the loop hits end-of-stream. -/
lemma parseHeaders_crlf :
    parseHeaders crlf = .error (.ioError ("No sequence found in stream")) := by
  have hscan : parse_stream_untill_sequence crlf crlf = .ok ([], []) := by decide
  simp only [parseHeaders, hscan, utf8Decode_ascii (l := []) (by simp)]
  simp [trim, parseHeadersLoop_nil]

/-- C5 (corrected, amended): a header line is split on *every*
occurrence of `": "` and only the first two chunks are used.  First
conjunct: for a line `nm ++ ": " ++ vl ++ ": " ++ w` with two or more
separators (`w` arbitrary — it may contain any number of further
`": "` occurrences and is silently discarded), the pair is
`(nm, vl)`: the value is only the text between the first and second
occurrence.  Second conjunct: when the remainder after the first
`": "` contains no further occurrence, the pair is (name, entire
remainder). -/
theorem headerLine_pair_between_separators :
    (∀ nm vl w rest : List Nat,
      (∀ b ∈ nm, b < 128 ∧ b ≠ 13 ∧ b ≠ 10) →
      (∀ b ∈ vl, b < 128 ∧ b ≠ 13 ∧ b ≠ 10) →
      (∀ b ∈ w, b < 128 ∧ b ≠ 13 ∧ b ≠ 10) →
      trim (nm ++ (str (": ") ++ (vl ++ (str (": ") ++ w)))) =
        nm ++ (str (": ") ++ (vl ++ (str (": ") ++ w))) →
      containsSeq nm (str (": ")) = false →
      containsSeq vl (str (": ")) = false →
      parseHeaders ((nm ++ (str (": ") ++ (vl ++ (str (": ") ++ w)))) ++
          (crlf ++ (crlf ++ rest))) =
        .ok ([(nm, vl)], rest)) ∧
    (∀ nm vl rest : List Nat,
      (∀ b ∈ nm, b < 128 ∧ b ≠ 13 ∧ b ≠ 10) →
      (∀ b ∈ vl, b < 128 ∧ b ≠ 13 ∧ b ≠ 10) →
      trim (nm ++ (str (": ") ++ vl)) = nm ++ (str (": ") ++ vl) →
      containsSeq nm (str (": ")) = false →
      containsSeq vl (str (": ")) = false →
      parseHeaders ((nm ++ (str (": ") ++ vl)) ++ (crlf ++ (crlf ++ rest))) =
        .ok ([(nm, vl)], rest)) := by
  constructor
  · intro nm vl w rest hnm hvl hw htrim hnosep1 hnosep2
    have h13nm : 13 ∉ nm := fun h => (hnm 13 h).2.1 rfl
    have h13vl : 13 ∉ vl := fun h => (hvl 13 h).2.1 rfl
    have h13w : 13 ∉ w := fun h => (hw 13 h).2.1 rfl
    have hline : containsSeq (nm ++ (str (": ") ++ (vl ++ (str (": ") ++ w))))
        crlf = false := by
      apply containsSeq2_false_of_not_mem
      exact not_mem_append h13nm (not_mem_append (by decide)
        (not_mem_append h13vl (not_mem_append (by decide) h13w)))
    have hascii : ∀ b ∈ nm ++ (str (": ") ++ (vl ++ (str (": ") ++ w))), b < 128 := by
      intro b hb
      rcases List.mem_append.mp hb with h | h
      · exact (hnm b h).1
      · rcases List.mem_append.mp h with h | h
        · have hb2 : b = 58 ∨ b = 32 := by simpa [str] using h
          rcases hb2 with rfl | rfl <;> omega
        · rcases List.mem_append.mp h with h | h
          · exact (hvl b h).1
          · rcases List.mem_append.mp h with h | h
            · have hb2 : b = 58 ∨ b = 32 := by simpa [str] using h
              rcases hb2 with rfl | rfl <;> omega
            · exact (hw b h).1
    rw [parseHeaders_line _ _ hline hascii, htrim]
    rw [if_pos (by simp [str])]
    have hsplit : splitOnSeq (str (": "))
        (nm ++ (str (": ") ++ (vl ++ (str (": ") ++ w)))) =
        nm :: vl :: splitOnSeq (str (": ")) w := by
      rw [splitOnSeq_append (str (": ")) (by decide) nm _
        (no_occ_sep2 nm _ 58 32 (by decide) hnosep1)]
      rw [splitOnSeq_append (str (": ")) (by decide) vl w
        (no_occ_sep2 vl w 58 32 (by decide) hnosep2)]
    rw [hsplit]
    exact parseHeadersLoop_end _ _
  · intro nm vl rest hnm hvl htrim hnosep1 hnosep2
    have h13nm : 13 ∉ nm := fun h => (hnm 13 h).2.1 rfl
    have h13vl : 13 ∉ vl := fun h => (hvl 13 h).2.1 rfl
    have hline : containsSeq (nm ++ (str (": ") ++ vl)) crlf = false := by
      apply containsSeq2_false_of_not_mem
      exact not_mem_append h13nm (not_mem_append (by decide) h13vl)
    have hascii : ∀ b ∈ nm ++ (str (": ") ++ vl), b < 128 := by
      intro b hb
      rcases List.mem_append.mp hb with h | h
      · exact (hnm b h).1
      · rcases List.mem_append.mp h with h | h
        · have hb2 : b = 58 ∨ b = 32 := by simpa [str] using h
          rcases hb2 with rfl | rfl <;> omega
        · exact (hvl b h).1
    rw [parseHeaders_line _ _ hline hascii, htrim]
    rw [if_pos (by simp [str])]
    have hsplit : splitOnSeq (str (": ")) (nm ++ (str (": ") ++ vl)) = nm :: vl :: [] := by
      rw [splitOnSeq_append (str (": ")) (by decide) nm vl
        (no_occ_sep2 nm vl 58 32 (by decide) hnosep1)]
      rw [splitOnSeq_of_no_sep (str (": ")) (by decide) vl hnosep2]
    rw [hsplit]
    exact parseHeadersLoop_end _ _

/-- C5 witness: the three-separator line `"Time: a: x: y"` yields the
pair `("Time", "a")` with everything after the second separator
discarded, and the ordinary line `"Host: example.com"` yields the
whole remainder as value. -/
theorem headerLine_pair_between_separators_witness :
    parseHeaders ((str ("Time") ++ (str (": ") ++ (str ("a") ++
          (str (": ") ++ str ("x: y"))))) ++ (crlf ++ (crlf ++ []))) =
        .ok ([(str ("Time"), str ("a"))], []) ∧
      parseHeaders ((str ("Host") ++ (str (": ") ++ str ("example.com"))) ++
          (crlf ++ (crlf ++ []))) =
        .ok ([(str ("Host"), str ("example.com"))], []) :=
  ⟨headerLine_pair_between_separators.1 (str ("Time")) (str ("a")) (str ("x: y")) []
      (by decide) (by decide) (by decide) (by decide) (by decide) (by decide),
   headerLine_pair_between_separators.2 (str ("Host")) (str ("example.com")) []
      (by decide) (by decide) (by decide) (by decide) (by decide)⟩

/-- C5 counterexample: on `"A: b: c"` the code produces the pair
`("A", "b")` — the value is *not* the entire remainder `"b: c"` after
the first separator, refuting the claim as stated. -/
theorem headerLine_value_truncated_cex :
    parseHeaders (str ("A: b: c") ++ (crlf ++ (crlf ++ []))) =
        .ok ([(str ("A"), str ("b"))], []) ∧
      (str ("A"), str ("b")) ≠ (str ("A"), str ("b: c")) := by
  constructor
  · rw [parseHeaders_line (str ("A: b: c")) (crlf ++ []) (by decide) (by decide)]
    rw [show trim (str ("A: b: c")) = str ("A: b: c") from by decide]
    rw [if_pos (by decide)]
    have hsplit : splitOnSeq (str (": ")) (str ("A: b: c")) =
        str ("A") :: str ("b") :: str ("c") :: [] := by
      rw [show str ("A: b: c") =
        str ("A") ++ (str (": ") ++ (str ("b") ++ (str (": ") ++ str ("c")))) from by decide]
      rw [splitOnSeq_append (str (": ")) (by decide) (str ("A")) _
        (no_occ_sep2 _ _ 58 32 (by decide) (by decide))]
      rw [splitOnSeq_append (str (": ")) (by decide) (str ("b")) _
        (no_occ_sep2 _ _ 58 32 (by decide) (by decide))]
      rw [splitOnSeq_of_no_sep (str (": ")) (by decide) _ (by decide)]
    rw [hsplit]
    exact parseHeadersLoop_end _ _
  · decide

/-- C7 (corrected, amended): a non-empty header line with no `": "`
separator makes the parse *panic* (`Option::unwrap` on `None`, modelled
by `Failure.panicked`) — a crash of the parsing operation, not a
recoverable error value passed up the chain. -/
theorem headerLine_missing_separator_panics (line rest : List Nat)
    (hascii : ∀ b ∈ line, b < 128 ∧ b ≠ 13 ∧ b ≠ 10)
    (htrim : trim line = line) (hne : line ≠ [])
    (hnosep : containsSeq line (str (": ")) = false) :
    parseHeaders (line ++ (crlf ++ rest)) = .error .panicked := by
  have h13 : 13 ∉ line := fun h => (hascii 13 h).2.1 rfl
  rw [parseHeaders_line line rest (containsSeq2_false_of_not_mem h13)
    (fun b hb => (hascii b hb).1)]
  rw [htrim]
  rw [if_pos (by
    cases line with
    | nil => exact absurd rfl hne
    | cons c cs => simp)]
  rw [splitOnSeq_of_no_sep (str (": ")) (by decide) line hnosep]

/-- C7 witness: the separator-less line `"Broken"`. -/
theorem headerLine_missing_separator_panics_witness :
    parseHeaders (str ("Broken") ++ (crlf ++ [])) = .error .panicked :=
  headerLine_missing_separator_panics (str ("Broken")) [] (by decide) (by decide)
    (by decide) (by decide)

/-- C7 counterexample: the concrete separator-less header line
`"XHeader"` ends in the panic outcome, not in a returned error value. -/
theorem headerLine_missing_separator_cex :
    parseHeaders (str ("XHeader") ++ (crlf ++ crlf)) = .error .panicked := by
  rw [parseHeaders_line (str ("XHeader")) crlf (by decide) (by decide)]
  rw [show trim (str ("XHeader")) = str ("XHeader") from by decide]
  rw [if_pos (by decide)]
  rw [splitOnSeq_of_no_sep (str (": ")) (by decide) _ (by decide)]

/-- C1 (code_bug): the `["A: 1", "B: 2", ""]` round trip does yield
`[("A","1"), ("B","2")]`, but a header block whose very first line is
empty does *not* succeed with an empty list: the unrolled first read
skips the empty line without breaking, the loop then reads from the
exhausted stream, and the whole parse fails with the unterminated-
stream io error — both for the header phase alone on `"\r\n"` and for
the full request `"GET / HTTP/1.1\r\n\r\n"`. -/
theorem headerBlock_roundtrip_and_empty_first_line :
    parseHeaders (str ("A: 1") ++ (crlf ++ (str ("B: 2") ++ (crlf ++ crlf)))) =
        .ok ([(str ("A"), str ("1")), (str ("B"), str ("2"))], []) ∧
      parseHeaders crlf = .error (.ioError ("No sequence found in stream")) ∧
      HttpRequest.from_stream (str ("GET / HTTP/1.1") ++ (crlf ++ crlf)) =
        .error (.ioError ("No sequence found in stream")) := by
  refine ⟨?_, parseHeaders_crlf, ?_⟩
  · rw [parseHeaders_line (str ("A: 1")) (str ("B: 2") ++ (crlf ++ crlf))
      (by decide) (by decide)]
    rw [show trim (str ("A: 1")) = str ("A: 1") from by decide]
    rw [if_pos (by decide)]
    have hsplit1 : splitOnSeq (str (": ")) (str ("A: 1")) = str ("A") :: str ("1") :: [] := by
      rw [show str ("A: 1") = str ("A") ++ (str (": ") ++ str ("1")) from by decide]
      rw [splitOnSeq_append (str (": ")) (by decide) (str ("A")) _
        (no_occ_sep2 _ _ 58 32 (by decide) (by decide))]
      rw [splitOnSeq_of_no_sep (str (": ")) (by decide) _ (by decide)]
    rw [hsplit1]
    have hsplit2 : splitOnSeq (str (": ")) (str ("B: 2")) = str ("B") :: str ("2") :: [] := by
      rw [show str ("B: 2") = str ("B") ++ (str (": ") ++ str ("2")) from by decide]
      rw [splitOnSeq_append (str (": ")) (by decide) (str ("B")) _
        (no_occ_sep2 _ _ 58 32 (by decide) (by decide))]
      rw [splitOnSeq_of_no_sep (str (": ")) (by decide) _ (by decide)]
    show parseHeadersLoop (str ("B: 2") ++ (crlf ++ crlf)) [(str ("A"), str ("1"))] = _
    rw [parseHeadersLoop_push (str ("B: 2")) crlf _ (str ("B")) (str ("2")) []
      (by decide) (by decide) (by decide) (by decide) hsplit2]
    exact parseHeadersLoop_end' _
  · have hrl : HttpRequestLine.from_stream (str ("GET / HTTP/1.1") ++ (crlf ++ crlf)) =
        .ok (⟨.Http1_1, str ("/"), .Get⟩, crlf) := by
      rw [show str ("GET / HTTP/1.1") =
        str ("GET") ++ ([32] ++ (str ("/") ++ ([32] ++ str ("HTTP/1.1")))) from by decide]
      have hwords : splitOnSeq [32]
          (str ("GET") ++ ([32] ++ (str ("/") ++ ([32] ++ str ("HTTP/1.1"))))) =
          str ("GET") :: str ("/") :: str ("HTTP/1.1") :: [] := by
        rw [splitOnSeq_append [32] (by decide) (str ("GET")) _
          (no_occ_of_first_not_mem _ _ _ 32 rfl (by decide))]
        rw [splitOnSeq_append [32] (by decide) (str ("/")) _
          (no_occ_of_first_not_mem _ _ _ 32 rfl (by decide))]
        rw [splitOnSeq_of_no_sep [32] (by decide) _
          (containsSeq1_false_of_not_mem (by decide))]
      rw [from_stream_reduce _ crlf _ _ _ [] (by decide) hwords
        (by decide) (by decide) (by decide)]
      rw [show HttpRequestMethod.from_str (str ("GET")) = .ok .Get from by decide]
      rw [show HttpVersion.from_str (str ("HTTP/1.1")) = .ok .Http1_1 from by decide]
    simp only [HttpRequest.from_stream, hrl, parseHeaders_crlf]

/-- C9 (confirmed): `write_text` on a fresh response yields exactly the
`Content-Type: text/plain` and `Content-Length: <decimal byte length>`
headers in that order and sets the body to the text; concretely,
`write_text("hello")` gives `Content-Length: 5` and body `"hello"`. -/
theorem writeText_sets_headers_and_body :
    (∀ (v : HttpVersion) (t : String),
      ((HttpResponse.new v).write_text t).headers =
          [("Content-Type", "text/plain"),
           ("Content-Length", toString t.utf8ByteSize)] ∧
        ((HttpResponse.new v).write_text t).content = t) ∧
    ((HttpResponse.new .Http1_1).write_text ("hello")).headers =
        [("Content-Type", "text/plain"), ("Content-Length", "5")] ∧
    ((HttpResponse.new .Http1_1).write_text ("hello")).content = "hello" := by
  refine ⟨fun v t => ⟨rfl, rfl⟩, ?_, rfl⟩
  rfl

end RustHttp
